import Mathlib

/-! # Pentatonic-Guitar-Trainer: verification of the audio / scoring core

Shallow embedding of the audio synthesis, pitch detection, scoring and
progression code of `pentatonic_trainer.py` and `pentatonic_gui.py`.

Audio samples are modelled by `ℝ` (the sine / cosine / exp samples the code
computes are transcendental); envelope values and sample counts, which the
source derives from rational constants, are modelled by `ℚ` and `ℕ`.
numpy float64 arithmetic is idealised as exact real / rational arithmetic,
and `int(x)` on the nonnegative quantities the code uses is the floor.
Division by zero follows Lean's total-division convention `x / 0 = 0`;
the one place the source divides by zero (normalising a silent buffer)
produces NaN in numpy, and in both models no autocorrelation peak
qualifies, so the detector returns no detection either way.
-/

namespace PGT

/-- Fixed sample rate, `pentatonic_trainer.py` line 30. -/
def SAMPLE_RATE : ℕ := 44100

/-- Fixed capture chunk, `pentatonic_trainer.py` line 31. -/
def CHUNK_SIZE : ℕ := 1024

/-- Resolve a (possibly negative) Python/numpy slice bound against an array of
length `len`: a negative bound counts from the end, and the result is clamped
into `[0, len]`, exactly as in numpy basic slicing. -/
def npIndex (len : ℕ) (i : ℤ) : ℕ :=
  (max 0 (min (len : ℤ) (if i < 0 then i + len else i))).toNat

/-- `l[start:stop] = v` on a numpy 1-d array: the clipped slice `[s, e)` is
overwritten by `v`.  numpy raises a broadcast ValueError unless the clipped
slice length equals `v.length`; the raise is embedded as `none`. -/
def npSetSlice (l : List ℚ) (start stop : ℤ) (v : List ℚ) : Option (List ℚ) :=
  let s := npIndex l.length start
  let e := npIndex l.length stop
  if e - s = v.length then some (l.take s ++ v ++ l.drop (s + v.length)) else none

/-- The `i`-th of `num` evenly spaced points from `a` to `b`
(`np.linspace` includes both endpoints). -/
def linVal (a b : ℚ) (num i : ℕ) : ℚ :=
  a + (b - a) * i / ((num - 1 : ℕ) : ℚ)

/-- `np.linspace a b num` over `ℚ`. -/
def linspaceQ (a b : ℚ) (num : ℕ) : List ℚ :=
  (List.range num).map (linVal a b num)

/-- Envelope construction of `generate_note` (`pentatonic_trainer.py`
lines 249-262): `envelope = np.ones_like(t)` of length `n`, then three
in-place slice assignments with `attack_samples = int(0.02*44100) = 882`,
`decay_samples = int(0.1*44100) = 4410`,
`release_samples = int(0.3*44100) = 13230`:
`envelope[:882] = np.linspace(0, 1, 882)`,
`envelope[882:5292] = np.linspace(1, 0.7, 4410)`,
`envelope[-13230:] = np.linspace(0.7, 0, 13230)`.
A numpy slice assignment raises (here: `none`) when the clipped slice
length differs from the assigned length. -/
def note_envelope (n : ℕ) : Option (List ℚ) :=
  (npSetSlice (List.replicate n 1) 0 882 (linspaceQ 0 1 882)).bind fun e1 =>
    (npSetSlice e1 882 5292 (linspaceQ 1 (7/10) 4410)).bind fun e2 =>
      npSetSlice e2 (-13230) (e2.length : ℤ) (linspaceQ (7/10) 0 13230)

/-- The value the three envelope slice writes leave at index `i` (the release
write happens last, so it is tested first), and `0` outside the buffer. -/
def envelope_value (n i : ℕ) : ℚ :=
  if n - 13230 ≤ i ∧ i < n then linVal (7/10) 0 13230 (i - (n - 13230))
  else if i < 882 then linVal 0 1 882 i
  else if i < 5292 then linVal 1 (7/10) 4410 (i - 882)
  else if i < n then 1 else 0

/-- The waveform summed by `generate_note` before the envelope (lines
239-247): sample `i` of `t = np.linspace(0, duration, n)` is
`duration * i / (n - 1)`; the fundamental sine at `frequency` plus
harmonics 2, 3, 4 at weights 0.5, 0.3, 0.2. -/
noncomputable def note_wave (frequency : ℝ) (duration : ℚ) (n i : ℕ) : ℝ :=
  let t : ℝ := (duration : ℝ) * i / ((n - 1 : ℕ) : ℝ)
  Real.sin (2 * Real.pi * frequency * t)
    + (1/2) * Real.sin (2 * Real.pi * (frequency * 2) * t)
    + (3/10) * Real.sin (2 * Real.pi * (frequency * 3) * t)
    + (1/5) * Real.sin (2 * Real.pi * (frequency * 4) * t)

/-- `generate_note(frequency, duration)` (lines 237-264): a buffer of
`n = int(44100 * duration)` samples, elementwise waveform times envelope
times the final `0.3` scale; `none` embeds the numpy broadcast error raised
by an envelope slice assignment when the buffer is too short. -/
noncomputable def generate_note (frequency : ℝ) (duration : ℚ) : Option (List ℝ) :=
  let n : ℕ := (⌊(44100 : ℚ) * duration⌋).toNat
  (note_envelope n).map fun env =>
    List.zipWith (fun w e => w * e * (3/10))
      ((List.range n).map (note_wave frequency duration n))
      (env.map (fun q : ℚ => (q : ℝ)))

/-- The envelope `generate_note` actually applies, region by region, when
the three windows are disjoint (buffer of at least 18522 samples, i.e.
duration at least 0.42 s): attack ramp, decay ramp, constant **1** in the
middle (the `np.ones` initial value is never overwritten there), release
ramp. -/
def envelope_value_regions (n i : ℕ) : ℚ :=
  if i < 882 then linVal 0 1 882 i
  else if i < 5292 then linVal 1 (7/10) 4410 (i - 882)
  else if i < n - 13230 then 1
  else linVal (7/10) 0 13230 (i - (n - 13230))

/-- Modelled from the spec wording of claim C8 (which the code refutes):
attack ramp 0 to 1, decay ramp 1 to 0.7, constant **0.7** over the remaining
middle, release ramp 0.7 to 0. -/
def claimed_envelope_value (n i : ℕ) : ℚ :=
  if i < 882 then linVal 0 1 882 i
  else if i < 5292 then linVal 1 (7/10) 4410 (i - 882)
  else if i < n - 13230 then 7/10
  else linVal (7/10) 0 13230 (i - (n - 13230))

/-- In-place `l[start:start+v.length] += v` on a numpy 1-d array
(`generate_metronome` only uses slices lying wholly inside the array). -/
def npAddSlice (l : List ℝ) (start : ℕ) (v : List ℝ) : List ℝ :=
  l.take start ++ List.zipWith (fun a b => a + b) ((l.drop start).take v.length) v
    ++ l.drop (start + v.length)

/-- Sample `i` of the metronome click of `generate_metronome` (lines
347-348): `t = np.linspace(0, 0.05, int(0.05*44100))`, i.e. 2205 samples
`0.05 * i / 2204`, and `click = np.sin(2*np.pi*1000*t) * np.exp(-10*t)` —
note: no amplitude factor (`play_demonstration`, line 273, scales its own
click by 0.3, but `generate_metronome` does not). -/
noncomputable def click_sample (i : ℕ) : ℝ :=
  Real.sin (2 * Real.pi * 1000 * ((1/20 : ℝ) * i / 2204)) *
    Real.exp (-10 * ((1/20 : ℝ) * i / 2204))

/-- Modelled from the spec wording of claim C9 (which the code refutes):
the click as the spec describes it, "1000 Hz sine with exponential decay
envelope exp(-10t), amplitude 0.3". -/
noncomputable def claimed_click_sample (i : ℕ) : ℝ :=
  Real.sin (2 * Real.pi * 1000 * ((1/20 : ℝ) * i / 2204)) *
    Real.exp (-10 * ((1/20 : ℝ) * i / 2204)) * (3/10)

/-- `generate_metronome(bpm, num_beats)` (lines 342-357):
`samples_per_beat = int(60.0/bpm * 44100)`,
`total_samples = int(num_beats * samples_per_beat)`, the 2205-sample click
is zero-padded to one beat (`np.pad` raises on a negative pad width,
embedded as `none`; unreachable for the bpm range the program allows), and
each beat's slice of a zero track gets `+= click`. -/
noncomputable def generate_metronome (bpm : ℕ) (num_beats : ℕ) : Option (List ℝ) :=
  let samples_per_beat := (⌊(60 / (bpm : ℚ)) * 44100⌋).toNat
  if 2205 ≤ samples_per_beat then
    let click := (List.range 2205).map click_sample ++
      List.replicate (samples_per_beat - 2205) 0
    some ((List.range num_beats).foldl
      (fun m i => npAddSlice m (i * samples_per_beat) click)
      (List.replicate (num_beats * samples_per_beat) 0))
  else none

open Classical in
/-- The plateau scan inside scipy.signal's `_local_maxima_1d` (which
`find_peaks` uses): starting at `i`, advance while the entry equals `v` and
the index stays below `iMax`; return the first index that breaks the run.
`fuel` bounds the recursion (callers pass the list length, which always
suffices). -/
noncomputable def plateau_scan (x : List ℝ) (v : ℝ) (iMax : ℕ) : ℕ → ℕ → ℕ
  | 0, i => i
  | fuel + 1, i =>
    if i < iMax ∧ x.getD i 0 = v then plateau_scan x v iMax fuel (i + 1) else i

open Classical in
/-- scipy.signal `_local_maxima_1d`: scan `i` from 1 below `len - 1`; when
`x[i-1] < x[i]`, scan the plateau of entries equal to `x[i]`; if the entry
after the plateau is smaller, record the plateau midpoint and resume after
the plateau, else resume at `i+1`.  Edge entries are never peaks. -/
noncomputable def local_maxima (x : List ℝ) : ℕ → ℕ → List ℕ
  | 0, _ => []
  | fuel + 1, i =>
    if i < x.length - 1 then
      if x.getD (i - 1) 0 < x.getD i 0 then
        if x.getD (plateau_scan x (x.getD i 0) (x.length - 1) x.length (i + 1)) 0
            < x.getD i 0 then
          ((i + (plateau_scan x (x.getD i 0) (x.length - 1) x.length (i + 1) - 1)) / 2) ::
            local_maxima x fuel (plateau_scan x (x.getD i 0) (x.length - 1) x.length (i + 1) + 1)
        else local_maxima x fuel (i + 1)
      else local_maxima x fuel (i + 1)
    else []

open Classical in
/-- `scipy.signal.find_peaks(x, height=h)[0]`: interior local maxima
(plateau midpoints), kept when the peak value is at least `h`. -/
noncomputable def find_peaks (x : List ℝ) (h : ℝ) : List ℕ :=
  (local_maxima x x.length 1).filter (fun p => h ≤ x.getD p 0)

/-- Lag-`τ` entry of the nonnegative-lag half of
`np.correlate(w, w, mode='full')` for a length-`n` signal read through `w`
(`correlation[len(correlation)//2:]`, line 315). -/
noncomputable def autocorr (w : ℕ → ℝ) (n τ : ℕ) : ℝ :=
  ∑ i ∈ Finset.range (n - τ), w i * w (i + τ)

/-- `np.max(np.abs(audio_data))` (line 307); the fold start 0 is sound
because the entries `|v|` are all nonnegative. -/
noncomputable def np_peak (audio : List ℝ) : ℝ :=
  (audio.map (fun v => |v|)).foldl max 0

/-- The normalized, Hann-windowed signal of
`detect_fundamental_frequency` (lines 307-311), read pointwise:
`(audio[i] / peak) * (0.5 - 0.5*cos(2*pi*i/(n-1)))` (`np.hanning`), and `0`
outside the buffer.  numpy turns a silent buffer into NaN here (0/0); Lean
total division yields 0 — in both models no peak passes the height test
below, so the detector returns no detection either way. -/
noncomputable def windowed (audio : List ℝ) : ℕ → ℝ := fun i =>
  (audio.getD i 0 / np_peak audio) *
    (1/2 - 1/2 * Real.cos (2 * Real.pi * i / ((audio.length - 1 : ℕ) : ℝ)))

/-- The nonnegative-lag autocorrelation sequence (lines 314-315). -/
noncomputable def corr_list (audio : List ℝ) : List ℝ :=
  (List.range audio.length).map (autocorr (windowed audio) audio.length)

/-- Lines 320-324: `SAMPLE_RATE / peaks[0]` when a peak exists, else no
detection. -/
noncomputable def freq_of_peaks : List ℕ → Option ℝ
  | [] => none
  | p :: _ => some (44100 / (p : ℝ))

/-- `detect_fundamental_frequency` (lines 301-324): `None` for segments
shorter than one capture chunk; otherwise normalize, window, autocorrelate,
take the first `find_peaks(corr, height=0.1)` peak and return
`SAMPLE_RATE / first_peak`; `None` when no peak qualifies. -/
noncomputable def detect_fundamental_frequency (audio : List ℝ) : Option ℝ :=
  if audio.length < 1024 then none
  else freq_of_peaks (find_peaks (corr_list audio) (1/10))

/-- The synthetic scoring chunk used to exhibit the detection shift of claim
C1: one beat at 120 BPM (22050 samples), silent except for two unit impulses
at samples 8000 and 8200 (lag 200). -/
noncomputable def spike_chunk : List ℝ :=
  (List.range 22050).map (fun i => if i = 8000 ∨ i = 8200 then (1:ℝ) else 0)

/-- One silent beat at 120 BPM. -/
noncomputable def silent_chunk : List ℝ := List.replicate 22050 0

/-- A one-silent-beat-then-one-spike-beat recording (count-in already
removed). -/
noncomputable def shifted_recording : List ℝ := silent_chunk ++ spike_chunk

/-- The Hann weight at index `i` of a 22050-sample window. -/
noncomputable def hann_22050 (i : ℕ) : ℝ :=
  1/2 - 1/2 * Real.cos (2 * Real.pi * i / ((22050 - 1 : ℕ) : ℝ))

/-- `range(0, len, samples_per_beat)` of the analysis loop
(`play_game` line 436; `analyze_recording` line 460 is identical). -/
def beat_starts (len spb : ℕ) : List ℕ :=
  (List.range ((len + spb - 1) / spb)).map (fun k => k * spb)

/-- Lines 434-442 (and GUI lines 458-466): walk the recording after the
count-in in `samples_per_beat` windows; for each window at least one
capture chunk long, run the detector and append the frequency **only when
detection succeeded** — a window with no detection appends nothing. -/
noncomputable def notes_detected (playing : List ℝ) (spb : ℕ) : List ℝ :=
  (beat_starts playing.length spb).foldl
    (fun acc i =>
      if 1024 ≤ ((playing.drop i).take spb).length then
        match detect_fundamental_frequency ((playing.drop i).take spb) with
        | some f => acc ++ [f]
        | none => acc
      else acc) []

/-- Modelled from the spec wording of claim C1 (which the code refutes):
one detected-frequency-or-`none` entry per beat window, in order. -/
noncomputable def claimed_notes_detected (playing : List ℝ) (spb : ℕ) : List (Option ℝ) :=
  (beat_starts playing.length spb).map
    (fun i =>
      if 1024 ≤ ((playing.drop i).take spb).length then
        detect_fundamental_frequency ((playing.drop i).take spb)
      else none)

/-- The scoring loop (lines 448-458): zip detections with expected
frequencies positionally; a pair is correct when
`|12*log2(detected/expected)|` is at most the 0.5-semitone tolerance.
(The loop's `if detected is not None` test is vacuously true: only
successful detections ever reach `notes_detected`.) -/
noncomputable def correct_notes (detected expected : List ℝ) : ℕ :=
  (detected.zip expected).foldl
    (fun c de => if |12 * Real.logb 2 (de.1 / de.2)| ≤ 1/2 then c + 1 else c) 0

/-- Modelled from the spec wording of claim C1: the same scoring over the
one-entry-per-window list, a `none` scored (incorrect) in place against its
own beat's expected note. -/
noncomputable def claimed_correct_notes (detected : List (Option ℝ))
    (expected : List ℝ) : ℕ :=
  (detected.zip expected).foldl
    (fun c de =>
      match de.1 with
      | some f => if |12 * Real.logb 2 (f / de.2)| ≤ 1/2 then c + 1 else c
      | none => c) 0

/-- Accuracy with the zero-division guard (lines 460-464 / GUI 489-491). -/
noncomputable def accuracy (detected expected : List ℝ) : ℝ :=
  if 0 < expected.length then (correct_notes detected expected : ℝ) / expected.length * 100
  else 0

open Classical in
/-- Python 3 `round` on a real value: round half to even. -/
noncomputable def pythonRound (x : ℝ) : ℤ :=
  if x - ⌊x⌋ < 1/2 then ⌊x⌋
  else if 1/2 < x - ⌊x⌋ then ⌊x⌋ + 1
  else if Even ⌊x⌋ then ⌊x⌋ else ⌊x⌋ + 1

/-- `find_closest_note` (lines 326-340): semitones from A4 via
`round(12 * np.log2(frequency / 440))`; note table
`['A','A#','B','C','C#','D','D#','E','F','F#','G','G#']` (anchored at A);
`octave = 4 + (semitones + 9) // 12` (Python floor division) and
`note_idx = (semitones + 9) % 12` (Python nonnegative mod). -/
noncomputable def find_closest_note (frequency : ℝ) : String :=
  let semitones := pythonRound (12 * Real.logb 2 (frequency / 440))
  let notes := ["A", "A#", "B", "C", "C#", "D", "D#", "E", "F", "F#", "G", "G#"]
  let octave := 4 + (semitones + 9).fdiv 12
  let note_idx := (semitones + 9).emod 12
  notes.getD note_idx.toNat "" ++ toString octave

/-- The persistent progress record (the dict literal at
`pentatonic_trainer.py` lines 63-70). -/
structure Progress where
  total_score : ℤ
  games_won : List String
  target_bpm : ℤ
  level_accuracies : List (String × List ℚ)
  highest_bpm : ℤ
  positions_unlocked : List String
deriving DecidableEq

/-- The in-memory trainer state mutated by the progression code. -/
structure TrainerState where
  progress : Progress
  current_bpm : ℤ
deriving DecidableEq

/-- A persisted store as `json.load` would return it: any subset of the
six fields present. -/
structure StoredProgress where
  total_score : Option ℤ
  games_won : Option (List String)
  target_bpm : Option ℤ
  level_accuracies : Option (List (String × List ℚ))
  highest_bpm : Option ℤ
  positions_unlocked : Option (List String)
deriving DecidableEq

/-- The record the `try` body at lines 504-511 would build from a loaded
store: each field via `.get` with its default (`self.target_bpm` and
`self.starting_bpm` passed in by the caller). -/
def install_fields (self_target_bpm self_starting_bpm : ℤ) (sp : StoredProgress) :
    Progress :=
  { total_score := sp.total_score.getD 0,
    games_won := sp.games_won.getD [],
    target_bpm := sp.target_bpm.getD self_target_bpm,
    level_accuracies := sp.level_accuracies.getD [],
    highest_bpm := sp.highest_bpm.getD self_starting_bpm,
    positions_unlocked := sp.positions_unlocked.getD ["position1"] }

/-- `load_progress` (lines 500-514).  `store` is `none` when the progress
file does not exist.  When it exists, the `try` body builds the new dict
from `saved_progress.get(...)` — but `saved_progress` is never assigned
(`json.load(f)` is never called), so evaluating the first field raises
`NameError`; the bare `except` catches it, prints
"Error loading progress, starting fresh." and the constructor defaults
survive.  The unbound name is embedded as the absent binding `none`; the
`some` arm shows what the code would install if the name were bound to the
parsed store, and is unreachable. -/
def load_progress (store : Option StoredProgress) (st : TrainerState) : TrainerState :=
  match store with
  | none => st
  | some _sp =>
    let saved_progress : Option StoredProgress := none
    match saved_progress with
    | some sp2 =>
      { progress := install_fields 240 120 sp2,
        current_bpm := (install_fields 240 120 sp2).highest_bpm }
    | none => st

/-- Decimal-digit parse of Python `int` on an unsigned character run;
`none` is the ValueError. -/
def pyIntAux (cs : List Char) : Option ℕ :=
  if cs ≠ [] ∧ cs.all Char.isDigit then
    some (cs.foldl (fun a c => a * 10 + (c.toNat - 48)) 0)
  else none

/-- Python `int(s)`: optional sign then decimal digits (the inputs this
program parses carry no surrounding whitespace); anything else raises
ValueError (`none`). -/
def pyInt (s : String) : Option ℤ :=
  match s.data with
  | '-' :: rest => (pyIntAux rest).map (fun n => -(n:ℤ))
  | '+' :: rest => (pyIntAux rest).map (fun n => (n:ℤ))
  | cs => (pyIntAux cs).map (fun n => (n:ℤ))

/-- Worker for `str.split()`: split a character list on space runs,
dropping empty pieces (the position names contain no other whitespace). -/
def splitWsAux : List Char → List Char → List (List Char)
  | [], acc => if acc = [] then [] else [acc.reverse]
  | c :: cs, acc =>
    if c = ' ' then
      if acc = [] then splitWsAux cs [] else acc.reverse :: splitWsAux cs []
    else splitWsAux cs (c :: acc)

/-- Python `str.split()` with no argument. -/
def pySplit (s : String) : List String :=
  (splitWsAux s.data []).map (fun cs => String.mk cs)

/-- `self.progress["level_accuracies"]` update (lines 470-473 / GUI
495-498): append to the key's list, creating the key at the end of the
(insertion-ordered) dict if absent. -/
def dict_append (d : List (String × List ℚ)) (k : String) (v : ℚ) :
    List (String × List ℚ) :=
  if (d.lookup k).isSome then
    d.map (fun p => if p.1 = k then (p.1, p.2 ++ [v]) else p)
  else d ++ [(k, [v])]

/-- The fresh progress record built in `__init__` (lines 63-70). -/
def initial_progress : Progress :=
  { total_score := 0, games_won := [], target_bpm := 240, level_accuracies := [],
    highest_bpm := 120, positions_unlocked := ["position1"] }

/-- Trainer state right after `__init__` with no saved file. -/
def initial_state : TrainerState :=
  { progress := initial_progress, current_bpm := 120 }

/-- The progression tail of `play_game` (lines 469-494): append accuracy;
on 100, record the achievement (with the pre-increment tempo), raise
`current_bpm` by 10 clamped to the target, raise `highest_bpm`, then unlock
the next position parsed from the last character of the position key
(`int(position[-1])`, which succeeds for "position1".."position5"). -/
def cli_update_progress (scale_name position : String) (acc : ℚ)
    (st : TrainerState) : Except String TrainerState :=
  let level_key := scale_name ++ "_" ++ toString st.current_bpm
  let la := dict_append st.progress.level_accuracies level_key acc
  let st1 : TrainerState := { st with progress.level_accuracies := la }
  if acc = 100 then
    let won := st1.progress.games_won ++
      [scale_name ++ " at " ++ toString st1.current_bpm ++ " BPM"]
    let st2 : TrainerState := { st1 with progress.games_won := won }
    let bpm3 := min (st2.current_bpm + 10) st2.progress.target_bpm
    let st3 : TrainerState := { st2 with current_bpm := bpm3 }
    let hb := max st3.progress.highest_bpm st3.current_bpm
    let st4 : TrainerState := { st3 with progress.highest_bpm := hb }
    match (position.data.getLast?).bind (fun c => pyIntAux [c]) with
    | none => .error "ValueError"
    | some current_pos =>
      let next_pos := "position" ++ toString (current_pos + 1)
      if current_pos < 5 ∧ next_pos ∉ st4.progress.positions_unlocked then
        let unlocked := st4.progress.positions_unlocked ++ [next_pos]
        .ok { st4 with progress.positions_unlocked := unlocked }
      else .ok st4
  else .ok st1

/-- The progression tail of the GUI `analyze_recording` (lines 494-520,
reached only when the expected sequence is nonempty): append accuracy; on
100, record the achievement, then parse
`int(self.current_position.name.split()[-1])` — the last *word* of the
position name — then unlock, then raise the tempo by 5 clamped to the
target (no update of `highest_bpm` exists on this path).  A parse failure
raises ValueError out of the method; the error carries the state mutated so
far (`save_progress` is never reached). -/
def gui_update_progress (name : String) (bpm : ℤ) (acc : ℚ)
    (st : TrainerState) : Except (String × TrainerState) TrainerState :=
  let level_key := name ++ "_" ++ toString bpm
  let la := dict_append st.progress.level_accuracies level_key acc
  let st1 : TrainerState := { st with progress.level_accuracies := la }
  if acc = 100 then
    let won := st1.progress.games_won ++ [name ++ " at " ++ toString bpm ++ " BPM"]
    let st2 : TrainerState := { st1 with progress.games_won := won }
    match pyInt ((pySplit name).getLast?.getD "") with
    | none => .error ("ValueError", st2)
    | some current_pos =>
      let next_pos := "position" ++ toString (current_pos + 1)
      let st3 : TrainerState :=
        if current_pos < 5 ∧ next_pos ∉ st2.progress.positions_unlocked then
          let unlocked := st2.progress.positions_unlocked ++ [next_pos]
          { st2 with progress.positions_unlocked := unlocked }
        else st2
      if bpm < st3.progress.target_bpm then
        let bpm4 := min (bpm + 5) st3.progress.target_bpm
        .ok { st3 with current_bpm := bpm4 }
      else .ok st3
  else .ok st1

/-- The record common to both outcomes below: accuracy appended and the
achievement recorded. -/
def updated_progress_common : Progress where
  total_score := 0
  games_won := ["Position 1 - A Minor Pentatonic at 120 BPM"]
  target_bpm := 240
  level_accuracies := [("Position 1 - A Minor Pentatonic_120", [100])]
  highest_bpm := 120
  positions_unlocked := ["position1"]

/-- What the CLI path produces from `initial_state` at 100%: tempo 130,
highest 130, position2 unlocked. -/
def cli_updated_progress : Progress where
  total_score := 0
  games_won := ["Position 1 - A Minor Pentatonic at 120 BPM"]
  target_bpm := 240
  level_accuracies := [("Position 1 - A Minor Pentatonic_120", [100])]
  highest_bpm := 130
  positions_unlocked := ["position1", "position2"]

theorem getD_range_map {α : Type} (f : ℕ → α) (n i : ℕ) (d : α) :
    ((List.range n).map f).getD i d = if i < n then f i else d := by
  by_cases h : i < n
  · rw [List.getD_eq_getElem?_getD, List.getElem?_map, List.getElem?_range h]
    simp [h]
  · rw [List.getD_eq_getElem?_getD, List.getElem?_map,
      List.getElem?_eq_none (by simpa using Nat.le_of_not_lt h)]
    simp [h]

theorem getD_replicate {α : Type} (a d : α) (n i : ℕ) :
    (List.replicate n a).getD i d = if i < n then a else d := by
  by_cases h : i < n
  · rw [List.getD_eq_getElem?_getD, List.getElem?_replicate, if_pos h]
    simp [h]
  · rw [List.getD_eq_getElem?_getD, List.getElem?_eq_none (by simpa using Nat.le_of_not_lt h)]
    simp [h]

theorem linspaceQ_length (a b : ℚ) (num : ℕ) : (linspaceQ a b num).length = num := by
  simp [linspaceQ]

theorem linspaceQ_getD (a b : ℚ) (num i : ℕ) :
    (linspaceQ a b num).getD i 0 = if i < num then linVal a b num i else 0 :=
  getD_range_map _ _ _ _

theorem npIndex_le (len : ℕ) (i : ℤ) : npIndex len i ≤ len := by
  unfold npIndex
  omega

theorem npSetSlice_eq_some {l v l2 : List ℚ} {start stop : ℤ}
    (h : npSetSlice l start stop v = some l2) :
    npIndex l.length stop - npIndex l.length start = v.length ∧
      l2 = l.take (npIndex l.length start) ++ v ++
        l.drop (npIndex l.length start + v.length) := by
  simp only [npSetSlice] at h
  split at h
  · injection h with h2
    exact ⟨by assumption, h2.symm⟩
  · cases h

theorem npSetSlice_length {l v l2 : List ℚ} {start stop : ℤ}
    (h : npSetSlice l start stop v = some l2) : l2.length = l.length := by
  obtain ⟨hg, rfl⟩ := npSetSlice_eq_some h
  have hs := npIndex_le l.length start
  have he := npIndex_le l.length stop
  simp [List.length_take, List.length_drop]
  omega

theorem npSetSlice_getD {l v l2 : List ℚ} {start stop : ℤ}
    (h : npSetSlice l start stop v = some l2) (i : ℕ) :
    l2.getD i 0 =
      if npIndex l.length start ≤ i ∧ i < npIndex l.length start + v.length
      then v.getD (i - npIndex l.length start) 0
      else l.getD i 0 := by
  obtain ⟨hg, rfl⟩ := npSetSlice_eq_some h
  have hs := npIndex_le l.length start
  have he := npIndex_le l.length stop
  set s := npIndex l.length start
  set e := npIndex l.length stop
  have hsv : s + v.length ≤ l.length := by omega
  have hA : (l.take s ++ v).length = s + v.length := by
    simp [List.length_take]
    omega
  rw [List.getD_eq_getElem?_getD, List.getD_eq_getElem?_getD, List.getElem?_append, hA]
  by_cases h2 : i < s + v.length
  · rw [if_pos h2, List.getElem?_append, List.length_take, Nat.min_eq_left hs]
    by_cases h1 : i < s
    · rw [if_pos h1, if_neg (by omega), List.getElem?_take]
      simp [h1]
    · rw [if_neg h1, if_pos (by omega)]
  · rw [if_neg h2, if_neg (by omega), List.getElem?_drop]
    have h3 : s + v.length + (i - (s + v.length)) = i := by omega
    rw [h3, List.getD_eq_getElem?_getD]

theorem npSetSlice_some (l v : List ℚ) (start stop : ℤ)
    (hg : npIndex l.length stop - npIndex l.length start = v.length) :
    npSetSlice l start stop v =
      some (l.take (npIndex l.length start) ++ v ++
        l.drop (npIndex l.length start + v.length)) := by
  simp only [npSetSlice]
  rw [if_pos hg]

theorem npSetSlice_none (l v : List ℚ) (start stop : ℤ)
    (hg : npIndex l.length stop - npIndex l.length start ≠ v.length) :
    npSetSlice l start stop v = none := by
  simp only [npSetSlice]
  rw [if_neg hg]

theorem npIndex_of_nonneg {n : ℕ} {i : ℤ} (hi : 0 ≤ i) :
    npIndex n i = min i.toNat n := by
  unfold npIndex
  rw [if_neg (by omega)]
  omega

theorem npIndex_of_neg {n : ℕ} {i : ℤ} (hi : i < 0) :
    npIndex n i = (i + n).toNat := by
  unfold npIndex
  rw [if_pos hi]
  omega

theorem note_envelope_spec {n : ℕ} (hn : 13230 ≤ n) :
    ∃ env, note_envelope n = some env ∧ env.length = n ∧
      ∀ i, env.getD i 0 = envelope_value n i := by
  have l0 : (List.replicate n (1:ℚ)).length = n := List.length_replicate _ _
  have i10 : npIndex (List.replicate n (1:ℚ)).length 0 = 0 := by
    rw [l0, npIndex_of_nonneg (by norm_num)]
    omega
  have i11 : npIndex (List.replicate n (1:ℚ)).length 882 = 882 := by
    rw [l0, npIndex_of_nonneg (by norm_num)]
    omega
  obtain ⟨e1, h1⟩ : ∃ e1, npSetSlice (List.replicate n 1) 0 882 (linspaceQ 0 1 882) = some e1 :=
    ⟨_, npSetSlice_some _ _ _ _ (by rw [i10, i11, linspaceQ_length])⟩
  have len1 : e1.length = n := by rw [npSetSlice_length h1, l0]
  have get1 : ∀ i, e1.getD i 0 =
      if i < 882 then linVal 0 1 882 i else (List.replicate n (1:ℚ)).getD i 0 := by
    intro i
    rw [npSetSlice_getD h1 i, i10, linspaceQ_length]
    by_cases h : i < 882
    · rw [if_pos ⟨by omega, by omega⟩, if_pos h, Nat.sub_zero, linspaceQ_getD, if_pos h]
    · rw [if_neg (by omega), if_neg h]
  have i21 : npIndex e1.length 882 = 882 := by
    rw [len1, npIndex_of_nonneg (by norm_num)]
    omega
  have i22 : npIndex e1.length 5292 = 5292 := by
    rw [len1, npIndex_of_nonneg (by norm_num)]
    omega
  obtain ⟨e2, h2⟩ : ∃ e2, npSetSlice e1 882 5292 (linspaceQ 1 (7/10) 4410) = some e2 :=
    ⟨_, npSetSlice_some _ _ _ _ (by rw [i21, i22, linspaceQ_length])⟩
  have len2 : e2.length = n := by rw [npSetSlice_length h2, len1]
  have get2 : ∀ i, e2.getD i 0 =
      if 882 ≤ i ∧ i < 5292 then linVal 1 (7/10) 4410 (i - 882) else e1.getD i 0 := by
    intro i
    rw [npSetSlice_getD h2 i, i21, linspaceQ_length]
    by_cases h : 882 ≤ i ∧ i < 5292
    · rw [if_pos ⟨h.1, by omega⟩, if_pos h, linspaceQ_getD, if_pos (by omega)]
    · rw [if_neg (by omega), if_neg h]
  have i31 : npIndex e2.length (-13230) = n - 13230 := by
    rw [len2, npIndex_of_neg (by norm_num)]
    omega
  have i32 : npIndex e2.length (e2.length : ℤ) = n := by
    rw [len2, npIndex_of_nonneg (by omega)]
    omega
  obtain ⟨e3, h3⟩ :
      ∃ e3, npSetSlice e2 (-13230) (e2.length : ℤ) (linspaceQ (7/10) 0 13230) = some e3 :=
    ⟨_, npSetSlice_some _ _ _ _ (by rw [i31, i32, linspaceQ_length]; omega)⟩
  refine ⟨e3, ?_, ?_, ?_⟩
  · simp only [note_envelope]
    rw [h1, Option.some_bind, h2, Option.some_bind, h3]
  · rw [npSetSlice_length h3, len2]
  · intro i
    rw [npSetSlice_getD h3 i, i31, linspaceQ_length, get2 i, get1 i, getD_replicate]
    unfold envelope_value
    by_cases hrel : n - 13230 ≤ i ∧ i < n
    · rw [if_pos ⟨hrel.1, by omega⟩, if_pos hrel, linspaceQ_getD, if_pos (by omega)]
    · rw [if_neg (by omega), if_neg hrel]
      by_cases h8 : i < 882
      · rw [if_neg (by omega), if_pos h8, if_pos h8]
      · rw [if_neg h8, if_neg h8]
        by_cases h5 : i < 5292
        · rw [if_pos ⟨by omega, h5⟩, if_pos h5]
        · rw [if_neg (by omega), if_neg h5]

theorem note_envelope_eq_none {n : ℕ} (hn : n < 13230) : note_envelope n = none := by
  simp only [note_envelope]
  by_cases hA : n < 882
  · rw [npSetSlice_none _ _ _ _ (by
      rw [List.length_replicate, npIndex_of_nonneg (by norm_num),
        npIndex_of_nonneg (by norm_num), linspaceQ_length]
      omega)]
    rfl
  · have l0 : (List.replicate n (1:ℚ)).length = n := List.length_replicate _ _
    have i10 : npIndex (List.replicate n (1:ℚ)).length 0 = 0 := by
      rw [l0, npIndex_of_nonneg (by norm_num)]
      omega
    have i11 : npIndex (List.replicate n (1:ℚ)).length 882 = 882 := by
      rw [l0, npIndex_of_nonneg (by norm_num)]
      omega
    obtain ⟨e1, h1⟩ : ∃ e1, npSetSlice (List.replicate n 1) 0 882 (linspaceQ 0 1 882) = some e1 :=
      ⟨_, npSetSlice_some _ _ _ _ (by rw [i10, i11, linspaceQ_length])⟩
    have len1 : e1.length = n := by rw [npSetSlice_length h1, l0]
    rw [h1, Option.some_bind]
    by_cases hB : n < 5292
    · rw [npSetSlice_none _ _ _ _ (by
        rw [len1, npIndex_of_nonneg (by norm_num), npIndex_of_nonneg (by norm_num),
          linspaceQ_length]
        omega)]
      rfl
    · have i21 : npIndex e1.length 882 = 882 := by
        rw [len1, npIndex_of_nonneg (by norm_num)]
        omega
      have i22 : npIndex e1.length 5292 = 5292 := by
        rw [len1, npIndex_of_nonneg (by norm_num)]
        omega
      obtain ⟨e2, h2⟩ : ∃ e2, npSetSlice e1 882 5292 (linspaceQ 1 (7/10) 4410) = some e2 :=
        ⟨_, npSetSlice_some _ _ _ _ (by rw [i21, i22, linspaceQ_length])⟩
      have len2 : e2.length = n := by rw [npSetSlice_length h2, len1]
      rw [h2, Option.some_bind]
      exact npSetSlice_none _ _ _ _ (by
        rw [len2, npIndex_of_nonneg (by omega), npIndex_of_neg (by norm_num),
          linspaceQ_length]
        omega)

theorem getD_zipWith (f : ℝ → ℝ → ℝ) (as bs : List ℝ) (i : ℕ)
    (ha : i < as.length) (hb : i < bs.length) :
    (List.zipWith f as bs).getD i 0 = f (as.getD i 0) (bs.getD i 0) := by
  have hz : i < (List.zipWith f as bs).length := by
    rw [List.length_zipWith]
    omega
  rw [List.getD_eq_getElem _ _ hz, List.getD_eq_getElem _ _ ha, List.getD_eq_getElem _ _ hb]
  simp [List.getElem_zipWith]

theorem getD_map_rat (env : List ℚ) (i : ℕ) :
    (env.map (fun q : ℚ => (q : ℝ))).getD i 0 = ((env.getD i 0 : ℚ) : ℝ) := by
  by_cases h : i < env.length
  · rw [List.getD_eq_getElem _ _ (by simpa using h), List.getD_eq_getElem _ _ h,
      List.getElem_map]
  · rw [List.getD_eq_getElem?_getD, List.getD_eq_getElem?_getD,
      List.getElem?_eq_none (by simpa using Nat.le_of_not_lt h),
      List.getElem?_eq_none (Nat.le_of_not_lt h)]
    simp

theorem generate_note_eq_none {frequency : ℝ} {duration : ℚ}
    (h : (⌊(44100 : ℚ) * duration⌋).toNat < 13230) :
    generate_note frequency duration = none := by
  simp only [generate_note]
  rw [note_envelope_eq_none h]
  rfl

theorem generate_note_spec {frequency : ℝ} {duration : ℚ}
    (h : 13230 ≤ (⌊(44100 : ℚ) * duration⌋).toNat) :
    ∃ buf, generate_note frequency duration = some buf ∧
      buf.length = (⌊(44100 : ℚ) * duration⌋).toNat ∧
      ∀ i, buf.getD i 0 =
        note_wave frequency duration ((⌊(44100 : ℚ) * duration⌋).toNat) i *
          ((envelope_value ((⌊(44100 : ℚ) * duration⌋).toNat) i : ℚ) : ℝ) * (3/10) := by
  obtain ⟨env, he, hlen, hval⟩ := note_envelope_spec h
  set n : ℕ := (⌊(44100 : ℚ) * duration⌋).toNat with hndef
  have hgen : generate_note frequency duration =
      some (List.zipWith (fun w e => w * e * (3/10))
        ((List.range n).map (note_wave frequency duration n))
        (env.map (fun q : ℚ => (q : ℝ)))) := by
    simp only [generate_note]
    rw [he]
    rfl
  refine ⟨_, hgen, ?_, ?_⟩
  · rw [List.length_zipWith, List.length_map, List.length_range, List.length_map, hlen]
    omega
  · intro i
    by_cases hi : i < n
    · rw [getD_zipWith _ _ _ i (by rw [List.length_map, List.length_range]; omega)
        (by rw [List.length_map, hlen]; omega),
        getD_range_map, if_pos hi, getD_map_rat, hval i]
    · have hz : (List.zipWith (fun w e => w * e * (3/10 : ℝ))
          ((List.range n).map (note_wave frequency duration n))
          (env.map (fun q : ℚ => (q : ℝ)))).length ≤ i := by
        rw [List.length_zipWith, List.length_map, List.length_range, List.length_map, hlen]
        omega
      rw [List.getD_eq_getElem?_getD, List.getElem?_eq_none hz]
      have hev : envelope_value n i = 0 := by
        unfold envelope_value
        rw [if_neg (by omega), if_neg (by omega), if_neg (by omega), if_neg (by omega)]
      rw [hev]
      simp

theorem envelope_value_nonneg {n : ℕ} (hn : 13230 ≤ n) (i : ℕ) :
    0 ≤ envelope_value n i := by
  unfold envelope_value linVal
  have c13 : ((13230 - 1 : ℕ) : ℚ) = 13229 := by norm_num
  have c882 : ((882 - 1 : ℕ) : ℚ) = 881 := by norm_num
  have c4410 : ((4410 - 1 : ℕ) : ℚ) = 4409 := by norm_num
  split_ifs with h1 h2 h3 h4
  · rw [c13]
    have hk : ((i - (n - 13230) : ℕ) : ℚ) ≤ 13229 := by
      have hk0 : (i - (n - 13230)) ≤ 13229 := by omega
      exact_mod_cast hk0
    have hk0 : (0:ℚ) ≤ ((i - (n - 13230) : ℕ) : ℚ) := Nat.cast_nonneg _
    linarith
  · rw [c882]
    have hk0 : (0:ℚ) ≤ ((i : ℕ) : ℚ) := Nat.cast_nonneg _
    linarith
  · rw [c4410]
    have hk : ((i - 882 : ℕ) : ℚ) ≤ 4409 := by
      have hk0 : (i - 882) ≤ 4409 := by omega
      exact_mod_cast hk0
    linarith
  · norm_num
  · exact le_refl _

theorem envelope_value_le_one {n : ℕ} (_hn : 13230 ≤ n) (i : ℕ) :
    envelope_value n i ≤ 1 := by
  unfold envelope_value linVal
  have c13 : ((13230 - 1 : ℕ) : ℚ) = 13229 := by norm_num
  have c882 : ((882 - 1 : ℕ) : ℚ) = 881 := by norm_num
  have c4410 : ((4410 - 1 : ℕ) : ℚ) = 4409 := by norm_num
  split_ifs with h1 h2 h3 h4
  · rw [c13]
    have hk0 : (0:ℚ) ≤ ((i - (n - 13230) : ℕ) : ℚ) := Nat.cast_nonneg _
    linarith
  · rw [c882]
    have hk : ((i : ℕ) : ℚ) ≤ 881 := by
      have hk0 : i ≤ 881 := by omega
      exact_mod_cast hk0
    linarith
  · rw [c4410]
    have hk0 : (0:ℚ) ≤ ((i - 882 : ℕ) : ℚ) := Nat.cast_nonneg _
    linarith
  · exact le_refl _
  · norm_num

theorem beat_samples_ge {bpm : ℕ} (h1 : 1 ≤ bpm) (h2 : bpm ≤ 200) :
    13230 ≤ (⌊(44100 : ℚ) * (60 / (bpm : ℚ))⌋).toNat := by
  have he : (44100 : ℚ) * (60 / (bpm : ℚ)) = 2646000 / (bpm : ℚ) := by ring
  have hpos : (0:ℚ) < (bpm:ℚ) := by exact_mod_cast h1
  have hf : (13230 : ℤ) ≤ ⌊(2646000 : ℚ) / (bpm : ℚ)⌋ := by
    rw [Int.le_floor, le_div_iff hpos]
    have hc : (bpm:ℚ) ≤ 200 := by exact_mod_cast h2
    push_cast
    nlinarith
  rw [he]
  omega

theorem beat_samples_lt {bpm : ℕ} (h1 : 201 ≤ bpm) :
    (⌊(44100 : ℚ) * (60 / (bpm : ℚ))⌋).toNat < 13230 := by
  have he : (44100 : ℚ) * (60 / (bpm : ℚ)) = 2646000 / (bpm : ℚ) := by ring
  have hpos : (0:ℚ) < (bpm:ℚ) := by
    have : 0 < bpm := by omega
    exact_mod_cast this
  have hf : ⌊(2646000 : ℚ) / (bpm : ℚ)⌋ < 13230 := by
    rw [Int.floor_lt, div_lt_iff hpos]
    have hc : (201:ℚ) ≤ (bpm:ℚ) := by exact_mod_cast h1
    push_cast
    nlinarith
  rw [he]
  omega

/-- C3 — counterexample to the claim as stated.  At the valid playback tempo
300 BPM, one beat lasts `60/300 = 0.2 s`, the buffer has
`int(44100*0.2) = 8820` samples, and the release window assignment
`envelope[-13230:] = np.linspace(0.7, 0, 13230)` raises a numpy broadcast
ValueError (the clipped slice has only 8820 entries); `generate_note` does
not return a buffer.  `none` embeds the raise. -/
theorem C3_counterexample : generate_note 440 (60 / 300 : ℚ) = none := by
  apply generate_note_eq_none
  have he : (44100 : ℚ) * (60 / 300) = ((8820:ℤ):ℚ) := by norm_num
  rw [he, Int.floor_intCast]
  norm_num

/-- C3 (amended): for tempos in [40, 200] BPM (one beat lasts at least
0.3 s, so every envelope window fits), `generate_note` returns a buffer of
`int(44100 * 60/bpm)` samples; for tempos in [201, 300] BPM the release
window exceeds the buffer and the slice assignment raises (`none`). -/
theorem C3_theorem :
    (∀ (frequency : ℝ) (bpm : ℕ), 40 ≤ bpm → bpm ≤ 200 →
      ∃ buf, generate_note frequency (60 / (bpm : ℚ)) = some buf ∧
        buf.length = (⌊(44100 : ℚ) * (60 / (bpm : ℚ))⌋).toNat) ∧
    ∀ (frequency : ℝ) (bpm : ℕ), 201 ≤ bpm → bpm ≤ 300 →
      generate_note frequency (60 / (bpm : ℚ)) = none := by
  constructor
  · intro f bpm h1 h2
    obtain ⟨buf, hb, hlen, _⟩ := generate_note_spec (beat_samples_ge (by omega) h2)
    exact ⟨buf, hb, hlen⟩
  · intro f bpm h1 _
    exact generate_note_eq_none (beat_samples_lt h1)

theorem C3_witness :
    ((40:ℕ) ≤ 120 ∧ (120:ℕ) ≤ 200 ∧
      ∃ buf, generate_note 440 (60 / ((120:ℕ) : ℚ)) = some buf ∧
        buf.length = (⌊(44100 : ℚ) * (60 / ((120:ℕ) : ℚ))⌋).toNat) ∧
    ((201:ℕ) ≤ 300 ∧ generate_note 440 (60 / ((300:ℕ) : ℚ)) = none) :=
  ⟨⟨by decide, by decide, C3_theorem.1 440 120 (by decide) (by decide)⟩,
    by decide, C3_theorem.2 440 300 (by decide) (by decide)⟩

theorem envelope_value_eq_regions {n i : ℕ} (hn : 18522 ≤ n) (hi : i < n) :
    envelope_value n i = envelope_value_regions n i := by
  unfold envelope_value envelope_value_regions
  by_cases ha : i < 882
  · rw [if_neg (by omega), if_pos ha, if_pos ha]
  · by_cases hd2 : i < 5292
    · rw [if_neg (by omega), if_neg ha, if_pos hd2, if_neg ha, if_pos hd2]
    · by_cases hm : i < n - 13230
      · rw [if_neg (by omega), if_neg ha, if_neg hd2, if_pos (by omega), if_neg ha,
          if_neg hd2, if_pos hm]
      · rw [if_pos ⟨by omega, hi⟩, if_neg ha, if_neg hd2, if_neg hm]

/-- C8 — counterexample to the claim as stated.  For duration 0.5 s the
buffer has `int(44100*0.5) = 22050` samples; sample 6000 lies in the
"remaining middle" between decay (ends at 5292) and release (starts at
22050-13230 = 8820), where the claim asserts the envelope is the constant
0.7 — but the code leaves the `np.ones` value 1 there, since no slice write
ever stores the sustain level. -/
theorem C8_counterexample :
    (⌊(44100 : ℚ) * (1/2)⌋).toNat = 22050 ∧
    ((note_envelope 22050).getD []).getD 6000 0 = 1 ∧
    claimed_envelope_value 22050 6000 = 7/10 ∧ (1:ℚ) ≠ 7/10 := by
  obtain ⟨env, he, hlen, hval⟩ := note_envelope_spec (by norm_num : (13230:ℕ) ≤ 22050)
  refine ⟨?_, ?_, ?_, by norm_num⟩
  · have h1 : (44100 : ℚ) * (1/2) = ((22050:ℤ):ℚ) := by norm_num
    rw [h1, Int.floor_intCast]
    rfl
  · rw [he, Option.getD_some, hval]
    unfold envelope_value
    rw [if_neg (by omega), if_neg (by omega), if_neg (by omega), if_pos (by omega)]
  · unfold claimed_envelope_value
    rw [if_neg (by omega), if_neg (by omega), if_pos (by omega)]

/-- C8 (amended): for every duration of at least 0.42 s, sample `i` of the
`generate_note` buffer is the waveform times the envelope times the 0.3
scale, where the envelope is: linear ramp 0 to 1 over the first 20 ms,
linear ramp 1 to 0.7 over the next 100 ms, constant **1.0** (not 0.7) over
the entire remaining middle, linear ramp 0.7 to 0 over the final 300 ms. -/
theorem C8_theorem (frequency : ℝ) (duration : ℚ) (hd : 42/100 ≤ duration) (i : ℕ)
    (hi : i < (⌊(44100 : ℚ) * duration⌋).toNat) :
    ((generate_note frequency duration).getD []).getD i 0 =
      note_wave frequency duration ((⌊(44100 : ℚ) * duration⌋).toNat) i *
        ((envelope_value_regions ((⌊(44100 : ℚ) * duration⌋).toNat) i : ℚ) : ℝ) *
        (3/10) := by
  have hn : 18522 ≤ (⌊(44100 : ℚ) * duration⌋).toNat := by
    have hfl : (18522 : ℤ) ≤ ⌊(44100 : ℚ) * duration⌋ := by
      rw [Int.le_floor]
      push_cast
      nlinarith
    omega
  obtain ⟨buf, hb, hlen, hval⟩ :=
    generate_note_spec (show 13230 ≤ (⌊(44100:ℚ) * duration⌋).toNat by omega)
  rw [hb, Option.getD_some, hval i, envelope_value_eq_regions hn hi]

theorem floor_half_beat : (⌊(44100 : ℚ) * (1/2)⌋).toNat = 22050 := by
  rw [show (44100 : ℚ) * (1/2) = ((22050:ℤ):ℚ) by norm_num, Int.floor_intCast]
  rfl

theorem C8_witness :
    (42/100 : ℚ) ≤ 1/2 ∧ 6000 < (⌊(44100 : ℚ) * (1/2)⌋).toNat ∧
    ((generate_note 440 (1/2)).getD []).getD 6000 0 =
      note_wave 440 (1/2) ((⌊(44100 : ℚ) * (1/2)⌋).toNat) 6000 *
        ((envelope_value_regions ((⌊(44100 : ℚ) * (1/2)⌋).toNat) 6000 : ℚ) : ℝ) *
        (3/10) :=
  ⟨by norm_num, by rw [floor_half_beat]; decide,
    C8_theorem 440 (1/2) (by norm_num) 6000 (by rw [floor_half_beat]; decide)⟩

theorem note_wave_abs_le (frequency : ℝ) (duration : ℚ) (n i : ℕ) :
    |note_wave frequency duration n i| ≤ 2 := by
  simp only [note_wave]
  set t : ℝ := (duration : ℝ) * i / ((n - 1 : ℕ) : ℝ) with ht
  have b1 : |Real.sin (2 * Real.pi * frequency * t)| ≤ 1 :=
    abs_le.mpr ⟨Real.neg_one_le_sin _, Real.sin_le_one _⟩
  have b2 : |Real.sin (2 * Real.pi * (frequency * 2) * t)| ≤ 1 :=
    abs_le.mpr ⟨Real.neg_one_le_sin _, Real.sin_le_one _⟩
  have b3 : |Real.sin (2 * Real.pi * (frequency * 3) * t)| ≤ 1 :=
    abs_le.mpr ⟨Real.neg_one_le_sin _, Real.sin_le_one _⟩
  have b4 : |Real.sin (2 * Real.pi * (frequency * 4) * t)| ≤ 1 :=
    abs_le.mpr ⟨Real.neg_one_le_sin _, Real.sin_le_one _⟩
  have hA := abs_add
    (Real.sin (2 * Real.pi * frequency * t)
      + (1/2) * Real.sin (2 * Real.pi * (frequency * 2) * t)
      + (3/10) * Real.sin (2 * Real.pi * (frequency * 3) * t))
    ((1/5) * Real.sin (2 * Real.pi * (frequency * 4) * t))
  have hB := abs_add
    (Real.sin (2 * Real.pi * frequency * t)
      + (1/2) * Real.sin (2 * Real.pi * (frequency * 2) * t))
    ((3/10) * Real.sin (2 * Real.pi * (frequency * 3) * t))
  have hC := abs_add (Real.sin (2 * Real.pi * frequency * t))
    ((1/2) * Real.sin (2 * Real.pi * (frequency * 2) * t))
  rw [abs_mul] at hA hB hC
  have habs2 : |(1/2 : ℝ)| = 1/2 := by norm_num
  have habs3 : |(3/10 : ℝ)| = 3/10 := by norm_num
  have habs5 : |(1/5 : ℝ)| = 1/5 := by norm_num
  rw [habs5] at hA
  rw [habs3] at hB
  rw [habs2] at hC
  linarith

/-- C10: every sample of any buffer `generate_note` returns has absolute
value at most 0.6 = 2 * 1 * 0.3 (harmonic weights sum to 2, envelope in
[0, 1], final scale 0.3); out-of-range indices and the error case read as
the default 0. -/
theorem C10_theorem (frequency : ℝ) (duration : ℚ) (i : ℕ) :
    |((generate_note frequency duration).getD []).getD i 0| ≤ 3/5 := by
  by_cases h : 13230 ≤ (⌊(44100 : ℚ) * duration⌋).toNat
  · obtain ⟨buf, hb, hlen, hval⟩ := generate_note_spec h
    rw [hb, Option.getD_some, hval i]
    have hw := note_wave_abs_le frequency duration ((⌊(44100 : ℚ) * duration⌋).toNat) i
    have he0 : (0:ℝ) ≤ ((envelope_value ((⌊(44100 : ℚ) * duration⌋).toNat) i : ℚ) : ℝ) := by
      have hq := envelope_value_nonneg h i
      exact_mod_cast hq
    have he1 : ((envelope_value ((⌊(44100 : ℚ) * duration⌋).toNat) i : ℚ) : ℝ) ≤ 1 := by
      have hq := envelope_value_le_one h i
      exact_mod_cast hq
    rw [abs_mul, abs_mul, abs_of_nonneg he0, show |(3/10 : ℝ)| = 3/10 by norm_num]
    have hwa := abs_nonneg (note_wave frequency duration ((⌊(44100 : ℚ) * duration⌋).toNat) i)
    nlinarith
  · rw [generate_note_eq_none (by omega)]
    norm_num

theorem getD_take {xs : List ℝ} {n j : ℕ} (h : j < n) :
    (xs.take n).getD j 0 = xs.getD j 0 := by
  rw [List.getD_eq_getElem?_getD, List.getD_eq_getElem?_getD, List.getElem?_take]
  simp [h]

theorem getD_drop (xs : List ℝ) (n j : ℕ) :
    (xs.drop n).getD j 0 = xs.getD (n + j) 0 := by
  rw [List.getD_eq_getElem?_getD, List.getD_eq_getElem?_getD, List.getElem?_drop]

theorem npAddSlice_length {l v : List ℝ} {start : ℕ} (h : start + v.length ≤ l.length) :
    (npAddSlice l start v).length = l.length := by
  unfold npAddSlice
  rw [List.length_append, List.length_append, List.length_zipWith, List.length_take,
    List.length_take, List.length_drop, List.length_drop]
  omega

theorem npAddSlice_getD {l v : List ℝ} {start : ℕ} (h : start + v.length ≤ l.length) (i : ℕ) :
    (npAddSlice l start v).getD i 0 =
      if start ≤ i ∧ i < start + v.length then l.getD i 0 + v.getD (i - start) 0
      else l.getD i 0 := by
  unfold npAddSlice
  have hA : (l.take start).length = start := by
    rw [List.length_take]
    omega
  have hB : (List.zipWith (fun a b => a + b) ((l.drop start).take v.length) v).length
      = v.length := by
    rw [List.length_zipWith, List.length_take, List.length_drop]
    omega
  have hAB : (l.take start ++
      List.zipWith (fun a b => a + b) ((l.drop start).take v.length) v).length
      = start + v.length := by
    rw [List.length_append, hA, hB]
  rw [List.getD_eq_getElem?_getD, List.getElem?_append, hAB]
  by_cases h2 : i < start + v.length
  · rw [if_pos h2, List.getElem?_append, hA]
    by_cases h1 : i < start
    · rw [if_pos h1, if_neg (by omega), List.getElem?_take]
      simp [h1, List.getD_eq_getElem?_getD]
    · rw [if_neg h1, if_pos (by omega)]
      have hj : i - start < v.length := by omega
      have hj2 : i - start <
          (List.zipWith (fun a b : ℝ => a + b) ((l.drop start).take v.length) v).length := by
        omega
      rw [show (List.zipWith (fun a b : ℝ => a + b) ((l.drop start).take v.length) v)[i -
          start]?.getD 0 = (List.zipWith (fun a b : ℝ => a + b)
          ((l.drop start).take v.length) v).getD (i - start) 0 from
        (List.getD_eq_getElem?_getD _ _ _).symm]
      rw [getD_zipWith _ _ _ _ (by rw [List.length_take, List.length_drop]; omega) hj,
        getD_take hj, getD_drop]
      rw [show start + (i - start) = i by omega]
  · rw [if_neg h2, if_neg (by omega), List.getElem?_drop]
    rw [show start + v.length + (i - (start + v.length)) = i by omega,
      List.getD_eq_getElem?_getD]

theorem padded_click_getD {spb : ℕ} (_hs : 2205 ≤ spb) (k : ℕ) :
    ((List.range 2205).map click_sample ++ List.replicate (spb - 2205) (0:ℝ)).getD k 0 =
      if k < 2205 then click_sample k else 0 := by
  rw [List.getD_eq_getElem?_getD, List.getElem?_append, List.length_map, List.length_range]
  by_cases h : k < 2205
  · rw [if_pos h, if_pos h, ← List.getD_eq_getElem?_getD, getD_range_map, if_pos h]
  · rw [if_neg h, if_neg h, ← List.getD_eq_getElem?_getD, getD_replicate]
    split <;> rfl

theorem padded_click_length {spb : ℕ} (hs : 2205 ≤ spb) :
    ((List.range 2205).map click_sample ++ List.replicate (spb - 2205) (0:ℝ)).length
      = spb := by
  rw [List.length_append, List.length_map, List.length_range, List.length_replicate]
  omega

theorem metronome_fold_spec {spb : ℕ} (hs : 2205 ≤ spb) (N : ℕ) :
    ∀ k, k ≤ N →
      (((List.range k).foldl
        (fun m i => npAddSlice m (i * spb)
          ((List.range 2205).map click_sample ++ List.replicate (spb - 2205) 0))
        (List.replicate (N * spb) 0)).length = N * spb) ∧
      ∀ j, ((List.range k).foldl
        (fun m i => npAddSlice m (i * spb)
          ((List.range 2205).map click_sample ++ List.replicate (spb - 2205) 0))
        (List.replicate (N * spb) 0)).getD j 0 =
          if j < k * spb ∧ j % spb < 2205 then click_sample (j % spb) else 0 := by
  set click : List ℝ :=
    (List.range 2205).map click_sample ++ List.replicate (spb - 2205) 0 with hclick
  set F : List ℝ → ℕ → List ℝ := fun m i => npAddSlice m (i * spb) click with hF
  set base : List ℝ := List.replicate (N * spb) 0 with hbase
  intro k
  induction k with
  | zero =>
    intro _
    refine ⟨by simp [hbase], ?_⟩
    intro j
    rw [List.range_zero, List.foldl_nil, hbase, getD_replicate]
    rw [if_neg (show ¬(j < 0 * spb ∧ j % spb < 2205) by omega)]
    split <;> rfl
  | succ k ih =>
    intro hk
    obtain ⟨ihlen, ihval⟩ := ih (by omega)
    have hstep : (List.range (k+1)).foldl F base = F ((List.range k).foldl F base) k := by
      rw [List.range_succ, List.foldl_append, List.foldl_cons, List.foldl_nil]
    have hin : k * spb + click.length ≤ ((List.range k).foldl F base).length := by
      rw [ihlen, hclick, padded_click_length hs]
      calc k * spb + spb = (k + 1) * spb := by ring
      _ ≤ N * spb := Nat.mul_le_mul_right _ hk
    rw [hstep]
    constructor
    · show (npAddSlice ((List.range k).foldl F base) (k * spb) click).length = N * spb
      rw [npAddSlice_length hin, ihlen]
    · intro j
      show (npAddSlice ((List.range k).foldl F base) (k * spb) click).getD j 0 = _
      rw [npAddSlice_getD hin j, hclick, padded_click_length hs]
      have hks : (k + 1) * spb = k * spb + spb := by ring
      by_cases hj : k * spb ≤ j ∧ j < k * spb + spb
      · rw [if_pos hj, ihval j, padded_click_getD hs]
        have hmod : j % spb = j - k * spb := by
          obtain ⟨h1, h2⟩ := hj
          have hsplit : j = (j - k * spb) + k * spb := by omega
          have hrest : j - k * spb < spb := by omega
          conv_lhs => rw [hsplit]
          rw [Nat.add_mul_mod_self_right, Nat.mod_eq_of_lt hrest]
        rw [if_neg (show ¬(j < k * spb ∧ j % spb < 2205) from
          fun hcon => absurd hcon.1 (by omega)), hmod]
        by_cases hcl : j - k * spb < 2205
        · rw [if_pos hcl, if_pos ⟨by omega, hcl⟩]
          ring
        · rw [if_neg hcl, if_neg (show ¬(j < (k+1) * spb ∧ j - k * spb < 2205) from
            fun hcon => absurd hcon.2 hcl)]
          ring
      · rw [if_neg hj, ihval j]
        by_cases hlt : j < k * spb ∧ j % spb < 2205
        · rw [if_pos hlt, if_pos ⟨by omega, hlt.2⟩]
        · rw [if_neg hlt]
          have hno : ¬(j < (k+1) * spb ∧ j % spb < 2205) := by
            intro hcon
            apply hlt
            refine ⟨?_, hcon.2⟩
            rcases Nat.lt_or_ge j (k * spb) with hc | hc
            · exact hc
            · exfalso
              have hj1 : j < (k + 1) * spb := hcon.1
              have hj2 : j < k * spb + spb := by
                calc j < (k + 1) * spb := hj1
                _ = k * spb + spb := by ring
              exact hj ⟨hc, hj2⟩
          rw [if_neg hno]

theorem spb_ge {bpm : ℕ} (h1 : 1 ≤ bpm) (h2 : bpm ≤ 300) :
    8820 ≤ (⌊(60 / (bpm : ℚ)) * 44100⌋).toNat := by
  have he : (60 / (bpm:ℚ)) * 44100 = 2646000 / (bpm:ℚ) := by ring
  have hpos : (0:ℚ) < (bpm:ℚ) := by exact_mod_cast h1
  have hf : (8820 : ℤ) ≤ ⌊(2646000 : ℚ) / (bpm : ℚ)⌋ := by
    rw [Int.le_floor, le_div_iff hpos]
    have hc : (bpm:ℚ) ≤ 300 := by exact_mod_cast h2
    push_cast
    nlinarith
  rw [he]
  omega

/-- C9 (amended): for every bpm in [40, 300] and every beat count, the
metronome track is `num_beats * int(60/bpm*44100)` samples long, and sample
`j` equals the 2205-sample `sin * exp` click at offset `j mod beat` when the
offset lies inside the click window — at amplitude **1**, the 0.3 factor of
the claim does not exist in `generate_metronome` — and is 0 (silence)
everywhere else. -/
theorem C9_theorem (bpm num_beats : ℕ) (h1 : 40 ≤ bpm) (h2 : bpm ≤ 300) :
    ∃ m, generate_metronome bpm num_beats = some m ∧
      m.length = num_beats * (⌊(60 / (bpm : ℚ)) * 44100⌋).toNat ∧
      ∀ j, m.getD j 0 =
        if j < num_beats * (⌊(60 / (bpm : ℚ)) * 44100⌋).toNat ∧
            j % (⌊(60 / (bpm : ℚ)) * 44100⌋).toNat < 2205
        then click_sample (j % (⌊(60 / (bpm : ℚ)) * 44100⌋).toNat) else 0 := by
  have hs : 2205 ≤ (⌊(60 / (bpm : ℚ)) * 44100⌋).toNat := by
    have hg := spb_ge (by omega) h2
    omega
  obtain ⟨hlen, hval⟩ := metronome_fold_spec hs num_beats num_beats (le_refl _)
  refine ⟨_, ?_, hlen, hval⟩
  simp only [generate_metronome]
  rw [if_pos hs]

theorem C9_witness :
    (40:ℕ) ≤ 120 ∧ (120:ℕ) ≤ 300 ∧
    ∃ m, generate_metronome 120 4 = some m ∧
      m.length = 4 * (⌊(60 / ((120:ℕ) : ℚ)) * 44100⌋).toNat ∧
      ∀ j, m.getD j 0 =
        if j < 4 * (⌊(60 / ((120:ℕ) : ℚ)) * 44100⌋).toNat ∧
            j % (⌊(60 / ((120:ℕ) : ℚ)) * 44100⌋).toNat < 2205
        then click_sample (j % (⌊(60 / ((120:ℕ) : ℚ)) * 44100⌋).toNat) else 0 :=
  ⟨by decide, by decide, C9_theorem 120 4 (by decide) (by decide)⟩

theorem spb_120 : (⌊(60 / ((120:ℕ) : ℚ)) * 44100⌋).toNat = 22050 := by
  rw [show (60 / ((120:ℕ):ℚ)) * 44100 = ((22050:ℤ):ℚ) by norm_num, Int.floor_intCast]
  rfl

/-- C9 — counterexample to the claim as stated: the claim (like the spec)
says each laid-out click has "amplitude 0.3", but `generate_metronome`
applies no 0.3 factor (only the demonstration click at line 273 has it).
At 120 BPM, sample 1 of a one-beat track equals the raw `sin * exp` click
sample, which is strictly positive and therefore differs from the claimed
0.3-scaled value. -/
theorem C9_counterexample :
    ∃ m, generate_metronome 120 1 = some m ∧
      m.getD 1 0 = click_sample 1 ∧
      claimed_click_sample 1 = click_sample 1 * (3/10) ∧
      m.getD 1 0 ≠ claimed_click_sample 1 := by
  have hs2205 : 2205 ≤ (⌊(60 / ((120:ℕ) : ℚ)) * 44100⌋).toNat := by
    rw [spb_120]
    norm_num
  obtain ⟨hlen, hval⟩ := metronome_fold_spec hs2205 1 1 (le_refl 1)
  have hpos : 0 < click_sample 1 := by
    unfold click_sample
    have hc1 : ((1:ℕ):ℝ) = 1 := Nat.cast_one
    rw [hc1]
    have hangle : 2 * Real.pi * 1000 * ((1/20 : ℝ) * 1 / 2204) =
        Real.pi * (25/551) := by ring
    rw [hangle]
    have hsin : 0 < Real.sin (Real.pi * (25/551)) := by
      apply Real.sin_pos_of_pos_of_lt_pi
      · have hp := Real.pi_pos
        positivity
      · nlinarith [Real.pi_pos]
    exact mul_pos hsin (Real.exp_pos _)
  have hv1 : ∀ m0, m0 = (List.range 1).foldl
      (fun m i => npAddSlice m (i * (⌊(60 / ((120:ℕ) : ℚ)) * 44100⌋).toNat)
        ((List.range 2205).map click_sample ++
          List.replicate ((⌊(60 / ((120:ℕ) : ℚ)) * 44100⌋).toNat - 2205) 0))
      (List.replicate (1 * (⌊(60 / ((120:ℕ) : ℚ)) * 44100⌋).toNat) 0) →
      m0.getD 1 0 = click_sample 1 := by
    intro m0 hm0
    rw [hm0, hval 1, spb_120]
    have hcond : 1 < 1 * 22050 ∧ 1 % 22050 < 2205 := by decide
    rw [if_pos hcond]
  refine ⟨_, ?_, hv1 _ rfl, ?_, ?_⟩
  · simp only [generate_metronome]
    rw [if_pos hs2205]
  · unfold claimed_click_sample click_sample
    ring
  · rw [hv1 _ rfl]
    intro heq
    rw [show claimed_click_sample 1 = click_sample 1 * (3/10) by
      unfold claimed_click_sample click_sample; ring] at heq
    nlinarith

theorem local_maxima_nil_of_zero {x : List ℝ} (hnn : ∀ j, 0 ≤ x.getD j 0) :
    ∀ (fuel i : ℕ), (∀ j, i ≤ j → x.getD j 0 = 0) → local_maxima x fuel i = [] := by
  intro fuel
  induction fuel with
  | zero =>
    intro i _
    rfl
  | succ fuel ih =>
    intro i hz
    show local_maxima x (fuel + 1) i = []
    rw [local_maxima]
    by_cases h1 : i < x.length - 1
    · rw [if_pos h1]
      rw [if_neg (show ¬ x.getD (i-1) 0 < x.getD i 0 by
        rw [hz i (le_refl i)]
        exact not_lt.mpr (hnn (i-1)))]
      exact ih (i+1) (fun j hj => hz j (by omega))
    · rw [if_neg h1]

theorem getD_zero_of_silent {audio : List ℝ} (hz : ∀ v ∈ audio, v = 0) (i : ℕ) :
    audio.getD i 0 = 0 := by
  by_cases h : i < audio.length
  · rw [List.getD_eq_getElem _ _ h]
    exact hz _ (List.getElem_mem h)
  · rw [List.getD_eq_getElem?_getD, List.getElem?_eq_none (by omega)]
    rfl

theorem corr_list_getD_zero {audio : List ℝ} (hz : ∀ v ∈ audio, v = 0) (j : ℕ) :
    (corr_list audio).getD j 0 = 0 := by
  unfold corr_list
  rw [getD_range_map]
  split
  · unfold autocorr
    apply Finset.sum_eq_zero
    intro i _
    unfold windowed
    rw [getD_zero_of_silent hz]
    ring
  · rfl

/-- Shared kernel of claim C4's silence half: a silent segment of full
length yields no detection (the peak test never fires on the all-zero
autocorrelation). -/
theorem detect_eq_none_of_silent {audio : List ℝ} (hz : ∀ v ∈ audio, v = 0)
    (hlen : 1024 ≤ audio.length) : detect_fundamental_frequency audio = none := by
  unfold detect_fundamental_frequency
  rw [if_neg (by omega)]
  have hlm : local_maxima (corr_list audio) (corr_list audio).length 1 = [] :=
    local_maxima_nil_of_zero (fun j => by rw [corr_list_getD_zero hz]) _ 1
      (fun j _ => corr_list_getD_zero hz j)
  unfold find_peaks
  rw [hlm]
  rfl

/-- C4: no detection (never an error) for too-short segments and for
silent segments with zero peak amplitude. -/
theorem C4_theorem (audio : List ℝ) :
    (audio.length < 1024 → detect_fundamental_frequency audio = none) ∧
    ((∀ v ∈ audio, v = 0) → detect_fundamental_frequency audio = none) := by
  constructor
  · intro h
    unfold detect_fundamental_frequency
    rw [if_pos h]
  · intro hz
    by_cases hlen : audio.length < 1024
    · unfold detect_fundamental_frequency
      rw [if_pos hlen]
    · exact detect_eq_none_of_silent hz (by omega)

theorem C4_witness :
    ((List.replicate 500 (0:ℝ)).length < 1024 ∧
      detect_fundamental_frequency (List.replicate 500 (0:ℝ)) = none) ∧
    ((∀ v ∈ List.replicate 2000 (0:ℝ), v = 0) ∧
      detect_fundamental_frequency (List.replicate 2000 (0:ℝ)) = none) :=
  ⟨⟨by rw [List.length_replicate]; decide,
      (C4_theorem (List.replicate 500 0)).1 (by rw [List.length_replicate]; decide)⟩,
    ⟨fun v hv => List.eq_of_mem_replicate hv,
      (C4_theorem (List.replicate 2000 0)).2 (fun v hv => List.eq_of_mem_replicate hv)⟩⟩

theorem acc_le_foldl_max (l : List ℝ) : ∀ acc : ℝ, acc ≤ l.foldl max acc := by
  induction l with
  | nil => intro acc; exact le_refl _
  | cons a t ih =>
    intro acc
    exact le_trans (le_max_left acc a) (ih (max acc a))

theorem foldl_max_le {c : ℝ} (l : List ℝ) :
    ∀ acc : ℝ, acc ≤ c → (∀ y ∈ l, y ≤ c) → l.foldl max acc ≤ c := by
  induction l with
  | nil => intro acc h _; exact h
  | cons a t ih =>
    intro acc hacc hall
    exact ih (max acc a)
      (max_le hacc (hall a (List.mem_cons_self a t)))
      (fun y hy => hall y (List.mem_cons_of_mem a hy))

theorem le_foldl_max {l : List ℝ} {y : ℝ} (hy : y ∈ l) :
    ∀ acc : ℝ, y ≤ l.foldl max acc := by
  induction l with
  | nil => cases hy
  | cons a t ih =>
    intro acc
    rcases List.mem_cons.mp hy with rfl | hmem
    · exact le_trans (le_max_right acc y) (acc_le_foldl_max t (max acc y))
    · exact ih hmem (max acc a)

theorem spike_chunk_length : spike_chunk.length = 22050 := by
  unfold spike_chunk
  rw [List.length_map, List.length_range]

theorem spike_chunk_getD (j : ℕ) :
    spike_chunk.getD j 0 =
      if j < 22050 then (if j = 8000 ∨ j = 8200 then 1 else 0) else 0 := by
  unfold spike_chunk
  exact getD_range_map _ _ _ _

theorem np_peak_spike : np_peak spike_chunk = 1 := by
  unfold np_peak
  apply le_antisymm
  · apply foldl_max_le _ _ (by norm_num)
    intro y hy
    obtain ⟨v, hv, rfl⟩ := List.mem_map.mp hy
    unfold spike_chunk at hv
    obtain ⟨i, _, rfl⟩ := List.mem_map.mp hv
    split
    · rw [abs_one]
    · rw [abs_zero]
      norm_num
  · apply le_foldl_max
    have h8 : (8000:ℕ) < spike_chunk.length := by
      rw [spike_chunk_length]
      norm_num
    have hval : spike_chunk.getD 8000 0 = 1 := by
      rw [spike_chunk_getD]
      norm_num
    rw [List.getD_eq_getElem _ _ h8] at hval
    have hmem : (1:ℝ) ∈ spike_chunk := hval ▸ List.getElem_mem h8
    exact List.mem_map.mpr ⟨1, hmem, abs_one⟩

theorem windowed_spike (i : ℕ) :
    windowed spike_chunk i =
      (if i = 8000 then hann_22050 8000 else 0) +
        (if i = 8200 then hann_22050 8200 else 0) := by
  unfold windowed hann_22050
  rw [np_peak_spike, spike_chunk_getD, spike_chunk_length]
  by_cases h0 : i = 8000
  · subst h0
    rw [if_pos (by norm_num), if_pos (by norm_num), if_pos rfl, if_neg (by norm_num)]
    ring
  · by_cases h2 : i = 8200
    · subst h2
      rw [if_pos (by norm_num), if_pos (by norm_num), if_neg h0, if_pos rfl]
      ring
    · rw [if_neg h0, if_neg h2]
      split
      · rw [if_neg (by tauto)]
        ring
      · ring

theorem hann_ge_half {k : ℕ} (h1 : 5513 ≤ k) (h2 : k ≤ 16536) :
    1/2 ≤ hann_22050 k := by
  unfold hann_22050
  have hc : ((22050 - 1 : ℕ) : ℝ) = 22049 := by norm_num
  rw [hc]
  have hknn : (5513:ℝ) ≤ (k:ℝ) := by exact_mod_cast h1
  have hkub : (k:ℝ) ≤ 16536 := by exact_mod_cast h2
  have hcos : Real.cos (2 * Real.pi * k / 22049) ≤ 0 := by
    apply Real.cos_nonpos_of_pi_div_two_le_of_le
    · calc Real.pi / 2 = Real.pi * (1/2) := by ring
      _ ≤ Real.pi * (2 * k / 22049) := by
          apply mul_le_mul_of_nonneg_left _ (le_of_lt Real.pi_pos)
          rw [le_div_iff (by norm_num : (0:ℝ) < 22049)]
          nlinarith
      _ = 2 * Real.pi * k / 22049 := by ring
    · calc 2 * Real.pi * k / 22049 = Real.pi * (2 * k / 22049) := by ring
      _ ≤ Real.pi * (3/2) := by
          apply mul_le_mul_of_nonneg_left _ (le_of_lt Real.pi_pos)
          rw [div_le_iff (by norm_num : (0:ℝ) < 22049)]
          nlinarith
      _ = Real.pi + Real.pi / 2 := by ring
  linarith

theorem hann_nonneg (i : ℕ) : 0 ≤ hann_22050 i := by
  unfold hann_22050
  have hcos := Real.cos_le_one (2 * Real.pi * i / ((22050 - 1 : ℕ) : ℝ))
  linarith

theorem plateau_scan_eq_self {x : List ℝ} {v : ℝ} {iMax : ℕ} {fuel i : ℕ}
    (hfuel : 0 < fuel) (h : ¬(i < iMax ∧ x.getD i 0 = v)) :
    plateau_scan x v iMax fuel i = i := by
  obtain ⟨f, rfl⟩ : ∃ f, fuel = f + 1 := ⟨fuel - 1, by omega⟩
  rw [plateau_scan, if_neg h]

theorem local_maxima_single_peak {x : List ℝ} {L : ℕ}
    (hL2 : 2 ≤ L) (hLn : L + 1 < x.length - 1) (hxlen : 0 < x.length)
    (hnn : ∀ j, 0 ≤ x.getD j 0)
    (hz1 : ∀ j, 1 ≤ j → j < L → x.getD j 0 = 0)
    (hpk : 0 < x.getD L 0)
    (hz2 : ∀ j, L + 1 ≤ j → x.getD j 0 = 0) :
    ∀ fuel i, 1 ≤ i → i ≤ L → L - i < fuel → local_maxima x fuel i = [L] := by
  intro fuel
  induction fuel with
  | zero =>
    intro i _ _ h
    exact absurd h (by omega)
  | succ fuel ih =>
    intro i h1 hiL hfuel
    show local_maxima x (fuel + 1) i = [L]
    rw [local_maxima]
    rw [if_pos (show i < x.length - 1 by omega)]
    by_cases hieq : i = L
    · subst hieq
      rw [if_pos (show x.getD (i - 1) 0 < x.getD i 0 by
        rw [hz1 (i-1) (by omega) (by omega)]
        exact hpk)]
      have hps : plateau_scan x (x.getD i 0) (x.length - 1) x.length (i + 1) = i + 1 := by
        apply plateau_scan_eq_self hxlen
        intro hcon
        have hz := hz2 (i + 1) (by omega)
        rw [hz] at hcon
        exact absurd hcon.2.symm (ne_of_gt hpk)
      rw [hps]
      rw [if_pos (show x.getD (i + 1) 0 < x.getD i 0 by
        rw [hz2 (i + 1) (by omega)]
        exact hpk)]
      have hmid : (i + (i + 1 - 1)) / 2 = i := by omega
      rw [hmid]
      have htail : local_maxima x fuel (i + 1 + 1) = [] :=
        local_maxima_nil_of_zero hnn fuel (i + 2) (fun j hj => hz2 j (by omega))
      rw [htail]
    · rw [if_neg (show ¬ x.getD (i - 1) 0 < x.getD i 0 by
        rw [hz1 i h1 (by omega)]
        exact not_lt.mpr (hnn (i - 1)))]
      exact ih (i + 1) (by omega) (by omega) (by omega)

theorem autocorr_spike_nonneg (τ : ℕ) : 0 ≤ autocorr (windowed spike_chunk) 22050 τ := by
  have hfac : ∀ m : ℕ, 0 ≤ (if m = 8000 then hann_22050 8000 else 0) +
      (if m = 8200 then hann_22050 8200 else 0) := by
    intro m
    apply add_nonneg <;> split
    · exact hann_nonneg _
    · exact le_refl 0
    · exact hann_nonneg _
    · exact le_refl 0
  apply Finset.sum_nonneg
  intro i _
  rw [windowed_spike i, windowed_spike (i + τ)]
  exact mul_nonneg (hfac i) (hfac (i + τ))

theorem autocorr_spike_zero {τ : ℕ} (h0 : τ ≠ 0) (h200 : τ ≠ 200) :
    autocorr (windowed spike_chunk) 22050 τ = 0 := by
  apply Finset.sum_eq_zero
  intro i _
  rw [windowed_spike i, windowed_spike (i + τ)]
  by_cases hi1 : i = 8000
  · subst hi1
    rw [if_pos rfl, if_neg (by norm_num), if_neg (show ¬(8000 + τ = 8000) by omega),
      if_neg (show ¬(8000 + τ = 8200) by omega)]
    ring
  · by_cases hi2 : i = 8200
    · subst hi2
      rw [if_neg (by norm_num), if_pos rfl, if_neg (show ¬(8200 + τ = 8000) by omega),
        if_neg (show ¬(8200 + τ = 8200) by omega)]
      ring
    · rw [if_neg hi1, if_neg hi2]
      ring

theorem autocorr_spike_peak :
    autocorr (windowed spike_chunk) 22050 200 =
      hann_22050 8000 * hann_22050 8200 := by
  unfold autocorr
  rw [Finset.sum_eq_single_of_mem 8000 (Finset.mem_range.mpr (by norm_num))
    (fun b _ hbne => by
      rw [windowed_spike b, windowed_spike (b + 200)]
      by_cases hb2 : b = 8200
      · subst hb2
        rw [if_neg (by norm_num), if_pos rfl, if_neg (by norm_num), if_neg (by norm_num)]
        ring
      · rw [if_neg hbne, if_neg hb2]
        ring)]
  rw [windowed_spike 8000, windowed_spike (8000 + 200)]
  rw [if_pos rfl, if_neg (by norm_num), if_neg (by norm_num), if_pos (by norm_num)]
  ring

theorem corr_list_spike_length : (corr_list spike_chunk).length = 22050 := by
  unfold corr_list
  rw [List.length_map, List.length_range, spike_chunk_length]

theorem corr_list_spike_getD (j : ℕ) :
    (corr_list spike_chunk).getD j 0 =
      if j < 22050 then autocorr (windowed spike_chunk) 22050 j else 0 := by
  unfold corr_list
  rw [spike_chunk_length]
  exact getD_range_map _ _ _ _

theorem spike_peak_value_large :
    1/10 ≤ (corr_list spike_chunk).getD 200 0 := by
  rw [corr_list_spike_getD, if_pos (by norm_num), autocorr_spike_peak]
  have ha := hann_ge_half (k := 8000) (by norm_num) (by norm_num)
  have hb := hann_ge_half (k := 8200) (by norm_num) (by norm_num)
  nlinarith

theorem find_peaks_spike : find_peaks (corr_list spike_chunk) (1/10) = [200] := by
  have hnn : ∀ j, 0 ≤ (corr_list spike_chunk).getD j 0 := by
    intro j
    rw [corr_list_spike_getD]
    split
    · exact autocorr_spike_nonneg j
    · exact le_refl 0
  have hz1 : ∀ j, 1 ≤ j → j < 200 → (corr_list spike_chunk).getD j 0 = 0 := by
    intro j hj1 hj2
    rw [corr_list_spike_getD, if_pos (by omega),
      autocorr_spike_zero (by omega) (by omega)]
  have hpk : 0 < (corr_list spike_chunk).getD 200 0 := by
    have := spike_peak_value_large
    linarith
  have hz2 : ∀ j, 201 ≤ j → (corr_list spike_chunk).getD j 0 = 0 := by
    intro j hj
    rw [corr_list_spike_getD]
    split
    · exact autocorr_spike_zero (by omega) (by omega)
    · rfl
  have hlm : local_maxima (corr_list spike_chunk) (corr_list spike_chunk).length 1
      = [200] := by
    apply local_maxima_single_peak (by norm_num)
      (by rw [corr_list_spike_length]; norm_num)
      (by rw [corr_list_spike_length]; norm_num) hnn hz1 hpk hz2
    · norm_num
    · norm_num
    · rw [corr_list_spike_length]
      norm_num
  unfold find_peaks
  rw [hlm]
  rw [List.filter_cons, if_pos (decide_eq_true spike_peak_value_large)]
  show (200:ℕ) :: List.filter _ [] = [200]
  rw [List.filter_nil]

theorem detect_spike : detect_fundamental_frequency spike_chunk = some (441/2) := by
  unfold detect_fundamental_frequency
  rw [if_neg (by rw [spike_chunk_length]; norm_num), find_peaks_spike]
  rw [freq_of_peaks]
  norm_num

theorem foldl_collect (g : ℕ → Option ℝ) :
    ∀ (l : List ℕ) (acc : List ℝ),
      l.foldl (fun acc i =>
        match g i with
        | some f => acc ++ [f]
        | none => acc) acc = acc ++ (l.map g).reduceOption := by
  intro l
  induction l with
  | nil =>
    intro acc
    simp [List.reduceOption]
  | cons a t ih =>
    intro acc
    rw [List.foldl_cons, List.map_cons]
    cases hg : g a with
    | none =>
      exact (ih acc).trans (by rw [List.reduceOption_cons_of_none])
    | some f =>
      exact (ih (acc ++ [f])).trans (by
        rw [List.reduceOption_cons_of_some]
        simp [List.append_assoc])

/-- Shared kernel of claim C1: the analysis loop keeps exactly the
successful detections, in order, dropping the per-window structure. -/
theorem notes_detected_eq_reduceOption (playing : List ℝ) (spb : ℕ) :
    notes_detected playing spb = (claimed_notes_detected playing spb).reduceOption := by
  unfold notes_detected claimed_notes_detected
  have hfun : (fun (acc : List ℝ) (i : ℕ) =>
      if 1024 ≤ ((playing.drop i).take spb).length then
        match detect_fundamental_frequency ((playing.drop i).take spb) with
        | some f => acc ++ [f]
        | none => acc
      else acc) =
      (fun (acc : List ℝ) (i : ℕ) =>
        match (if 1024 ≤ ((playing.drop i).take spb).length then
            detect_fundamental_frequency ((playing.drop i).take spb)
          else none) with
        | some f => acc ++ [f]
        | none => acc) := by
    funext acc i
    split
    · rfl
    · rfl
  rw [hfun]
  exact (foldl_collect _ _ []).trans (List.nil_append _)

/-- C1 (amended): the scorer does **not** keep one entry per beat window;
it keeps only the windows whose detection succeeded (dropping too-short
windows and failed detections), so the zip pairs the k-th successful
detection with the k-th expected note and a missed beat shifts every later
detection one expected note earlier. -/
theorem C1_theorem (playing : List ℝ) (spb : ℕ) :
    notes_detected playing spb = (claimed_notes_detected playing spb).reduceOption :=
  notes_detected_eq_reduceOption playing spb

theorem silent_chunk_length : silent_chunk.length = 22050 := by
  unfold silent_chunk
  rw [List.length_replicate]

theorem shifted_recording_length : shifted_recording.length = 44100 := by
  unfold shifted_recording
  rw [List.length_append, silent_chunk_length, spike_chunk_length]

theorem beat_starts_shifted : beat_starts 44100 22050 = [0, 22050] := by
  unfold beat_starts
  decide

theorem shifted_chunk0 : (shifted_recording.drop 0).take 22050 = silent_chunk := by
  rw [List.drop_zero]
  unfold shifted_recording
  rw [← silent_chunk_length, List.take_left]

theorem shifted_chunk1 : (shifted_recording.drop 22050).take 22050 = spike_chunk := by
  unfold shifted_recording
  nth_rewrite 2 [← silent_chunk_length]
  rw [List.drop_left, ← spike_chunk_length, List.take_length]

theorem detect_silent : detect_fundamental_frequency silent_chunk = none := by
  apply detect_eq_none_of_silent
  · intro v hv
    exact List.eq_of_mem_replicate hv
  · rw [silent_chunk_length]
    norm_num

theorem claimed_detections_shifted :
    claimed_notes_detected shifted_recording 22050 = [none, some (441/2)] := by
  unfold claimed_notes_detected
  rw [shifted_recording_length, beat_starts_shifted]
  simp only [List.map_cons, List.map_nil]
  rw [shifted_chunk0, shifted_chunk1]
  rw [if_pos (by rw [silent_chunk_length]; norm_num),
    if_pos (by rw [spike_chunk_length]; norm_num),
    detect_silent, detect_spike]

theorem logb_far : Real.logb 2 ((441/2 : ℝ)/880) ≤ -1 := by
  have h1 : ((441:ℝ)/2)/880 ≤ 1/2 := by norm_num
  have h2 : (0:ℝ) < (441/2)/880 := by norm_num
  calc Real.logb 2 ((441/2 : ℝ)/880) ≤ Real.logb 2 (1/2) :=
        Real.logb_le_logb_of_le (by norm_num) h2 h1
  _ = -1 := by
      rw [show (1/2 : ℝ) = 2⁻¹ by norm_num, Real.logb_inv,
        Real.logb_self_eq_one (by norm_num)]

theorem far_not_tolerated : ¬(|12 * Real.logb 2 ((441/2 : ℝ)/880)| ≤ 1/2) := by
  intro hcon
  rw [abs_mul, show |(12:ℝ)| = 12 by norm_num] at hcon
  have hL : 1 ≤ |Real.logb 2 ((441/2 : ℝ)/880)| := by
    rw [abs_of_nonpos (by linarith [logb_far])]
    linarith [logb_far]
  linarith

theorem exact_tolerated : |12 * Real.logb 2 ((441/2 : ℝ)/(441/2))| ≤ 1/2 := by
  rw [div_self (by norm_num : (441/2 : ℝ) ≠ 0), Real.logb_one]
  norm_num

/-- C1 — counterexample to the claim as stated.  On a recording whose first
beat window is silent and whose second contains a (synthetic) tone that the
detector resolves to 220.5 Hz, the code collects only `[220.5]` — not one
entry per window — and the zip pairs that second-window detection with the
**first** expected note: against expected notes `[220.5 Hz, 880 Hz]` the
code counts 1 correct, while the claim's per-window pairing (first window:
no detection, incorrect; second window: 220.5 vs 880, incorrect) counts 0.
The missed beat shifted the later detection onto the earlier expected
note. -/
theorem C1_counterexample :
    notes_detected shifted_recording 22050 = [441/2] ∧
    claimed_notes_detected shifted_recording 22050 = [none, some (441/2)] ∧
    correct_notes (notes_detected shifted_recording 22050) [441/2, 880] = 1 ∧
    claimed_correct_notes (claimed_notes_detected shifted_recording 22050)
      [441/2, 880] = 0 := by
  have hnd : notes_detected shifted_recording 22050 = [441/2] := by
    rw [notes_detected_eq_reduceOption, claimed_detections_shifted,
      List.reduceOption_cons_of_none, List.reduceOption_cons_of_some,
      List.reduceOption_nil]
  refine ⟨hnd, claimed_detections_shifted, ?_, ?_⟩
  · rw [hnd]
    unfold correct_notes
    rw [List.zip_cons_cons, List.zip_nil_left]
    rw [List.foldl_cons, List.foldl_nil]
    show (if |12 * Real.logb 2 ((441/2 : ℝ)/(441/2))| ≤ 1/2 then 0 + 1 else 0) = 1
    rw [if_pos exact_tolerated]
  · rw [claimed_detections_shifted]
    unfold claimed_correct_notes
    rw [List.zip_cons_cons, List.zip_cons_cons, List.zip_nil_left]
    rw [List.foldl_cons, List.foldl_cons, List.foldl_nil]
    show (if |12 * Real.logb 2 ((441/2 : ℝ)/880)| ≤ 1/2 then 0 + 1 else 0) = 0
    rw [if_neg far_not_tolerated]

theorem pythonRound_zero : pythonRound 0 = 0 := by
  unfold pythonRound
  rw [Int.floor_zero]
  norm_num

/-- C7: the code maps 440 Hz to the name "F#4", not "A4": the `+9`
pitch-class offset (correct only for a C-anchored table) is applied to the
A-anchored table, contradicting the function's own comments
(`# A4 = 440 Hz`, `# Note names starting from A`). -/
theorem C7_theorem : find_closest_note 440 = "F#4" ∧ "F#4" ≠ "A4" := by
  constructor
  · unfold find_closest_note
    rw [div_self (by norm_num : (440:ℝ) ≠ 0), Real.logb_one, mul_zero, pythonRound_zero]
    rfl
  · decide

/-- C5: stored values are never installed — `saved_progress` is an unbound
name, so every load (file present or not, store well-formed or not) keeps
the in-memory defaults; the conjunct about `install_fields` shows that a
well-formed store carrying `total_score = 5` **would** have installed 5,
i.e. the fallback is observably different from the claimed install. -/
theorem C5_theorem :
    (∀ (store : Option StoredProgress) (st : TrainerState), load_progress store st = st) ∧
    (install_fields 240 120
      { total_score := some 5, games_won := some [], target_bpm := some 200,
        level_accuracies := some [], highest_bpm := some 180,
        positions_unlocked := some ["position1"] }).total_score = 5 := by
  constructor
  · intro store st
    cases store
    · rfl
    · rfl
  · rfl

/-- C6: at 100% accuracy on the GUI path, the code raises ValueError while
parsing `int("Pentatonic")` (the last word of the position name) before any
tempo, unlock or highest-tempo update — and the GUI path contains no
highest-tempo update at all; the CLI path does behave as claimed: +10
clamped to the target, highest raised, exactly the next position
unlocked. -/
theorem C6_theorem :
    gui_update_progress "Position 1 - A Minor Pentatonic" 120 100 initial_state =
      .error ("ValueError", { progress := updated_progress_common, current_bpm := 120 }) ∧
    cli_update_progress "Position 1 - A Minor Pentatonic" "position1" 100 initial_state =
      .ok { progress := cli_updated_progress, current_bpm := 130 } := by
  constructor
  · rfl
  · rfl

end PGT
